import Mathlib

/-!
Verification development for the Sequence timeline engine of the
Video-Editing-Automation repository (src/include/Sequence.h).

The repository sources provide the interface header `Sequence.h` only; the
implementation file `Sequence.c` and the collaborator headers `Clip.h` /
`LinkedListAPI.h` are not part of the given sources.  Every operation below
is therefore a shallow embedding whose body is modelled from the
specification (spec.md), while the data model follows the fields declared in
`Sequence.h` where the header shows them.

Machine integers (`int`, `int64_t`) are modelled as `Int`, non-negative
quantities (tick rates, frame counts, cursors) as `Nat`; the C `double fps`
is modelled as a positive integer frame rate, which covers every rate the
spec discusses.  Division written `/` on `Int` in the spec ("integer (floor)
division") is modelled with `Int.fdiv`, the floor division.
-/

namespace VEA

/-- Modelled from the spec: FFmpeg's `AVRational` time base (the struct is
declared outside the given sources).  `den` is the "ticks per second" of the
timeline (§3: "a time-base rational (ticks per second)"). -/
structure AVRational where
  num : Int
  den : Nat
deriving DecidableEq

/-- Modelled from the spec: the `Clip` entity of `Clip.h`, which is not among
the given sources.  §3 "Clip Placement": `pts` is *timeline_start_pts* (in
timeline ticks; the header stores it on the clip, "LinkedList of Clips in
order of clip->pts"), `orig_pts` is *clip_origin_pts* (in the clip's own
ticks), `tps` is the clip's own ticks-per-second, `duration` is the clip's
own reported duration bound (in its own ticks, §4.4), `frames` is the number
of frames the clip provides (its span, §4.2), `cursor` is the clip's internal
read position in frames (§6: "a seek-to-local-position operation"), and
`stamp` is a model-only tag recording insertion time, used to express the
stability invariant of §3 ("ties are broken by insertion order"). -/
structure Clip where
  pts : Int
  orig_pts : Int
  tps : Nat
  duration : Int
  frames : Nat
  cursor : Nat
  stamp : Nat
deriving DecidableEq

/-- Modelled from the spec, §4.3: the three states of the seek/read state
machine (`UNSEEKED`, `POSITIONED`, `END`).  The C struct keeps this implicit
in `current_clip_idx` / `clips_iter`; the spec's §9 note asks for the
explicit tagged state used here. -/
inductive SeqState where
  | UNSEEKED
  | POSITIONED
  | END
deriving DecidableEq

/-- The `Sequence` struct of `Sequence.h` (lines 19-53): `clips` (list of
clips in `clip->pts` order), `time_base`, `fps`, `video_frame_duration`
("Calculation = time_base.den / fps"), `current_frame_idx`,
`current_clip_idx`.  The header's `clips_iter` iterator is subsumed by
`current_clip_idx`; `state` and `stamp_counter` are model fields described
at `SeqState` and `Clip.stamp`. -/
structure Sequence where
  clips : List Clip
  time_base : AVRational
  fps : Nat
  video_frame_duration : Nat
  current_frame_idx : Int
  current_clip_idx : Int
  state : SeqState
  stamp_counter : Nat
deriving DecidableEq

/-- Modelled from the spec: `init_sequence` (declared at `Sequence.h:60`,
body in the absent `Sequence.c`).  §4.5: creates an empty timeline in
`UNSEEKED` state with the frame duration computed once as
ticks-per-second / frame-rate; the header comment on
`video_frame_duration` gives the same formula `time_base.den / fps`. -/
def init_sequence (time_base : AVRational) (fps : Nat) : Sequence where
  clips := []
  time_base := time_base
  fps := fps
  video_frame_duration := time_base.den / fps
  current_frame_idx := 0
  current_clip_idx := -1
  state := SeqState.UNSEEKED
  stamp_counter := 0

/-- Modelled from the spec: `seq_frame_index_to_pts` (declared at
`Sequence.h:93`, body in the absent `Sequence.c`).  §4.1:
"ticks = frame_index * frame_duration". -/
def seq_frame_index_to_pts (seq : Sequence) (frame_index : Int) : Int :=
  frame_index * (seq.video_frame_duration : Int)

/-- Modelled from the spec: `seq_pts_to_frame_index` (declared at
`Sequence.h:101`, body in the absent `Sequence.c`).  §4.1:
"frame_index = ticks / frame_duration using integer (floor) division". -/
def seq_pts_to_frame_index (seq : Sequence) (pts : Int) : Int :=
  Int.fdiv pts (seq.video_frame_duration : Int)

/-- Timeline frame index at which a clip's placement starts: its
*timeline_start_pts* converted to a frame index (§4.2 "whose
timeline_start_pts (converted to a frame index)"). -/
def clip_start_frame (fd : Nat) (c : Clip) : Int :=
  Int.fdiv c.pts (fd : Int)

/-- Modelled from the spec: the ordered-list utility's stable insert-by-key
(§6: "insert-by-key (stable, ascending)"; the `LinkedListAPI.h` utility is
not among the given sources).  The new clip is placed after every clip whose
key is less than or equal to its own, so equal keys keep insertion order. -/
def insertClip (c : Clip) : List Clip → List Clip
  | [] => [c]
  | x :: xs => if x.pts ≤ c.pts then x :: insertClip c xs else c :: x :: xs

/-- Modelled from the spec: removal of one clip from the ordered list (§4.2
"move, which removes a placement and reinserts it at a new key"); the first
occurrence of the clip is removed, as with a pointer match in the C list. -/
def eraseClip (c : Clip) : List Clip → List Clip
  | [] => []
  | x :: xs => if x = c then xs else x :: eraseClip c xs

/-- Modelled from the spec: `sequence_add_clip_pts` (declared at
`Sequence.h:78`, body in the absent `Sequence.c`).  Sets the clip's
*timeline_start_pts* and inserts it into the sorted clip list (header:
"Insert Clip in sequence in sorted clip->pts order").  The model stamps the
clip with the current insertion counter. -/
def sequence_add_clip_pts (seq : Sequence) (clip : Clip) (start_pts : Int) : Sequence :=
  { seq with
    clips := insertClip { clip with pts := start_pts, stamp := seq.stamp_counter } seq.clips
    stamp_counter := seq.stamp_counter + 1 }

/-- Modelled from the spec: `sequence_add_clip` (declared at `Sequence.h:69`,
body in the absent `Sequence.c`): as `sequence_add_clip_pts`, with the start
position given as a frame index and converted via §4.1. -/
def sequence_add_clip (seq : Sequence) (clip : Clip) (start_frame_index : Int) : Sequence :=
  sequence_add_clip_pts seq clip (seq_frame_index_to_pts seq start_frame_index)

/-- End position of the last placement in timeline ticks, 0 for an empty
timeline (§4.2: append "computes the new placement's timeline_start_pts as
the end position of the last placement (0 if empty)"); a placement of `n`
frames occupies `n * frame_duration` ticks. -/
def sequence_end_pts (seq : Sequence) : Int :=
  match seq.clips.getLast? with
  | none => 0
  | some l => l.pts + ((l.frames * seq.video_frame_duration : Nat) : Int)

/-- Modelled from the spec: `sequence_append_clip` (declared at
`Sequence.h:85`, body in the absent `Sequence.c`).  §4.2: a derived add at
the end position of the last placement. -/
def sequence_append_clip (seq : Sequence) (clip : Clip) : Sequence :=
  sequence_add_clip_pts seq clip (sequence_end_pts seq)

/-- Modelled from the spec: `move_clip_pts` (declared at `Sequence.h:153`,
body in the absent `Sequence.c`).  §4.2: "move, which removes a placement
and reinserts it at a new key". -/
def move_clip_pts (seq : Sequence) (clip : Clip) (start_pts : Int) : Sequence :=
  sequence_add_clip_pts { seq with clips := eraseClip clip seq.clips } clip start_pts

/-- Modelled from the spec: `move_clip` (declared at `Sequence.h:144`, body
in the absent `Sequence.c`): `move_clip_pts` with the key given as a frame
index. -/
def move_clip (seq : Sequence) (clip : Clip) (start_frame_index : Int) : Sequence :=
  move_clip_pts seq clip (seq_frame_index_to_pts seq start_frame_index)

/-- Modelled from the spec: tick-unit rescale of §4.4, "value *
clip_ticks_per_second / timeline_ticks_per_second, integer-rounded", applied
only "if the Clip's time base differs from the Timeline's"; the
integer rounding is floor division, as in §4.1. -/
def rescale_to_clip (v : Int) (seq_tps clip_tps : Nat) : Int :=
  if clip_tps = seq_tps then v else Int.fdiv (v * (clip_tps : Int)) (seq_tps : Int)

/-- Modelled from the spec: `seq_frame_within_clip` (declared at
`Sequence.h:115`, body in the absent `Sequence.c`).  §4.4: the clip-local
position is `clip_origin_pts + (frame_index_ticks - timeline_start_pts_ticks)`
with the timeline-tick difference rescaled into the clip's own tick unit when
the bases differ; failure (a negative return, header: "on fail: < 0") when
the resolved position is negative or beyond the clip's own duration. -/
def seq_frame_within_clip (seq : Sequence) (clip : Clip) (frame_index : Int) : Int :=
  let pos := clip.orig_pts +
    rescale_to_clip (seq_frame_index_to_pts seq frame_index - clip.pts) seq.time_base.den clip.tps
  if pos < 0 ∨ clip.duration < pos then -1 else pos

/-- Modelled from the spec: the containment search of §4.2, "find the last
placement whose timeline_start_pts (converted to a frame index) is ≤ F";
returns that placement's position in the list together with the placement,
or none when F precedes every placement.  The scan may stop at the first
placement starting beyond F because the list is kept sorted. -/
def lastStartLE (fd : Nat) (F : Int) : List Clip → Option (Nat × Clip)
  | [] => none
  | c :: cs =>
    if clip_start_frame fd c ≤ F then
      match lastStartLE fd F cs with
      | some ic => some (ic.1 + 1, ic.2)
      | none => some (0, c)
    else none

/-- Modelled from the spec: `sequence_seek` (declared at `Sequence.h:123`,
body in the absent `Sequence.c`).  §4.2/§4.3: resolve the frame index by the
containment search, confirm it lies within the found placement's span, set
the clip's own read cursor to the clip-local frame, record
`current_frame_idx` and `current_clip_idx` together and enter `POSITIONED`;
on failure (before all clips, past all clips, or in a gap) return a negative
code and leave the state unchanged.  The C function mutates `seq` and
returns an `int`; the model returns the code paired with the new state. -/
def sequence_seek (seq : Sequence) (frame_index : Int) : Int × Sequence :=
  match lastStartLE seq.video_frame_duration frame_index seq.clips with
  | none => (-1, seq)
  | some (i, c) =>
    if frame_index < clip_start_frame seq.video_frame_duration c + (c.frames : Int) then
      (0, { seq with
            clips := seq.clips.set i
              { c with cursor := (frame_index - clip_start_frame seq.video_frame_duration c).toNat }
            current_frame_idx := frame_index
            current_clip_idx := Int.ofNat i
            state := SeqState.POSITIONED })
    else (-1, seq)

/-- Modelled from the spec: the data unit produced by a read.  The C
function fills an FFmpeg `AVPacket` (declared outside the given sources);
the model records the clip the packet is attributed to (its position in the
clip list) and the timeline frame index it carries. -/
structure AVPacket where
  clip_index : Nat
  frame_index : Int
deriving DecidableEq

/-- Modelled from the spec: the `POSITIONED` branch of `read()` (§4.3).  If
the active clip still has frames, emit one packet, advance the clip's cursor
and `current_frame_idx`, and stay `POSITIONED`; if the clip is exhausted,
advance to the next placement, seek it to its own *timeline_start_pts* frame
(local frame 0) and retry; if no next placement exists, enter `END` and
report end-of-sequence.  The fuel argument bounds the number of exhausted
clips skipped in one call; `sequence_read_packet` passes enough for the
whole list. -/
def seq_read_rec : Nat → Sequence → Int × Option AVPacket × Sequence
  | 0, seq => (-1, none, seq)
  | Nat.succ fuel, seq =>
    match seq.clips[seq.current_clip_idx.toNat]? with
    | none => (-1, none, { seq with state := SeqState.END })
    | some c =>
      if c.cursor < c.frames then
        (0, some ⟨seq.current_clip_idx.toNat, seq.current_frame_idx⟩,
         { seq with
           clips := seq.clips.set seq.current_clip_idx.toNat { c with cursor := c.cursor + 1 }
           current_frame_idx := seq.current_frame_idx + 1 })
      else
        match seq.clips[seq.current_clip_idx.toNat + 1]? with
        | some c2 =>
          seq_read_rec fuel
            { seq with
              clips := seq.clips.set (seq.current_clip_idx.toNat + 1) { c2 with cursor := 0 }
              current_clip_idx := Int.ofNat (seq.current_clip_idx.toNat + 1)
              current_frame_idx := clip_start_frame seq.video_frame_duration c2 }
        | none => (-1, none, { seq with state := SeqState.END })

/-- Modelled from the spec: `sequence_read_packet` (declared at
`Sequence.h:135`, body in the absent `Sequence.c`).  Header: ">= 0 on
success, < 0 when reached end of sequence or error"; §4.3: reads in
`UNSEEKED` or `END` report the error/end condition without side effects. -/
def sequence_read_packet (seq : Sequence) : Int × Option AVPacket × Sequence :=
  match seq.state with
  | SeqState.UNSEEKED => (-1, none, seq)
  | SeqState.END => (-1, none, seq)
  | SeqState.POSITIONED => seq_read_rec (seq.clips.length + 1) seq

/-- Modelled from the spec: `get_current_clip` (declared at
`Sequence.h:160`, body in the absent `Sequence.c`): the placement active at
the current seek position, if any. -/
def get_current_clip (seq : Sequence) : Option Clip :=
  if seq.current_clip_idx < 0 then none else seq.clips[seq.current_clip_idx.toNat]?

/-- Driver for the usage pattern of `Sequence.h:130` ("call this function in
a loop while >= 0 to get full edit"): perform at most `n` reads, collecting
the packets produced before the first negative return. -/
def readN : Nat → Sequence → List AVPacket
  | 0, _ => []
  | Nat.succ n, seq =>
    match sequence_read_packet seq with
    | (r, some p, seq2) => if 0 ≤ r then p :: readN n seq2 else []
    | (_, none, _) => []

/-- One mutating operation on the clip list: the four operations named by
the ordered-clip-index contract (§4.2). -/
inductive SeqOp where
  | addClip (c : Clip) (start_frame_index : Int)
  | addClipPts (c : Clip) (start_pts : Int)
  | appendClip (c : Clip)
  | moveClipPts (c : Clip) (start_pts : Int)

/-- Interpretation of one `SeqOp` by the corresponding operation. -/
def applySeqOp (seq : Sequence) : SeqOp → Sequence
  | SeqOp.addClip c F => sequence_add_clip seq c F
  | SeqOp.addClipPts c p => sequence_add_clip_pts seq c p
  | SeqOp.appendClip c => sequence_append_clip seq c
  | SeqOp.moveClipPts c p => move_clip_pts seq c p

/-- An arbitrary interleaving of mutating operations, applied in order. -/
def applySeqOps (seq : Sequence) (ops : List SeqOp) : Sequence :=
  ops.foldl applySeqOp seq

/-- Order of §3's invariant: strictly earlier start pts, or equal start pts
and strictly earlier insertion stamp (stable tie-break). -/
def clipBefore (a b : Clip) : Prop :=
  a.pts < b.pts ∨ (a.pts = b.pts ∧ a.stamp < b.stamp)

/-- The sorted-and-stable invariant on a clip list: consecutive clips are in
ascending `pts` order with ties in insertion order. -/
def clipsOrdered (l : List Clip) : Prop :=
  l.Pairwise clipBefore

/-- All insertion stamps in the list are below the sequence's counter. -/
def stampsBelow (l : List Clip) (n : Nat) : Prop :=
  ∀ x ∈ l, x.stamp < n

instance (a b : Clip) : Decidable (clipBefore a b) := by
  unfold clipBefore; infer_instance

/-- The stable order refines the key order. -/
theorem clipBefore_pts_le {a b : Clip} (h : clipBefore a b) : a.pts ≤ b.pts := by
  rcases h with h | ⟨h, _⟩
  · exact le_of_lt h
  · exact le_of_eq h

instance (l : List Clip) : Decidable (clipsOrdered l) := by
  unfold clipsOrdered; infer_instance

/-! Concrete instances used by the example scenarios of the spec (§8) and by
the witnesses below: a timeline at 600000 ticks per second and 30 frames per
second, clips in the same time base. -/

/-- The spec's example time base, 1/600000 (§8). -/
def exTimeBase : AVRational := ⟨1, 600000⟩

/-- An empty timeline at the example time base and 30 fps. -/
def exSeq0 : Sequence := init_sequence exTimeBase 30

/-- A 10-frame clip (§8's clip A of the boundary scenario). -/
def exClipA : Clip := ⟨0, 0, 600000, 100000000, 10, 0, 0⟩

/-- A 15-frame clip (§8's clip B of the boundary scenario). -/
def exClipB : Clip := ⟨0, 0, 600000, 100000000, 15, 0, 0⟩

/-- The two-clip timeline [A: frames 0-9][B: frames 10-24] of §8. -/
def exSeqAB : Sequence :=
  sequence_append_clip (sequence_add_clip exSeq0 exClipA 0) exClipB

/-- The boundary-scenario timeline after `sequence_seek 0`. -/
def exSeqRead : Sequence := (sequence_seek exSeqAB 0).2

/-- A 90-frame clip (§8's frame-duration example, clip A). -/
def exClipA90 : Clip := ⟨0, 0, 600000, 600000000, 90, 0, 0⟩

/-- A 25-frame clip (§8's frame-duration example, clip B). -/
def exClipB25 : Clip := ⟨0, 0, 600000, 600000000, 25, 0, 0⟩

/-- The timeline holding the 90-frame clip at position 0. -/
def exSeqA90 : Sequence := sequence_add_clip exSeq0 exClipA90 0

/-- The frame-duration example timeline after appending the second clip. -/
def exSeqAB90 : Sequence := sequence_append_clip exSeqA90 exClipB25

/-- C1: for every non-negative frame index F, converting F to a pts value
with `seq_frame_index_to_pts` and converting back with
`seq_pts_to_frame_index` returns F, whenever the frame duration evenly
divides the timeline's ticks per second (which forces the frame duration to
be non-zero). -/
theorem seq_frame_pts_round_trip (seq : Sequence) (F : Int) (hF : 0 ≤ F)
    (hdvd : seq.video_frame_duration ∣ seq.time_base.den)
    (hden : 0 < seq.time_base.den) :
    seq_pts_to_frame_index seq (seq_frame_index_to_pts seq F) = F := by
  have hfd : (seq.video_frame_duration : Int) ≠ 0 := by
    intro h0
    have h1 : seq.video_frame_duration = 0 := by exact_mod_cast h0
    rw [h1] at hdvd
    have h2 := Nat.eq_zero_of_zero_dvd hdvd
    omega
  unfold seq_pts_to_frame_index seq_frame_index_to_pts
  exact Int.mul_fdiv_cancel F hfd

/-- Witness for C1: the round trip at the example timeline (frame duration
20000 divides 600000) and frame index 7. -/
theorem seq_frame_pts_round_trip_witness :
    seq_pts_to_frame_index exSeq0 (seq_frame_index_to_pts exSeq0 7) = 7 :=
  seq_frame_pts_round_trip exSeq0 7 (by decide) (by decide) (by decide)

/-- C7: `seq_frame_index_to_pts` multiplies the frame index by the frame
duration, and `seq_pts_to_frame_index` is the floor of the pts divided by
the frame duration: its result frame starts at or before the pts and the
next frame starts strictly after it, so a pts with a non-zero remainder
belongs to the frame that contains it. -/
theorem seq_conversion_formulas (seq : Sequence) (F p : Int) :
    seq_frame_index_to_pts seq F = F * (seq.video_frame_duration : Int) ∧
    (0 < seq.video_frame_duration →
      seq_pts_to_frame_index seq p * (seq.video_frame_duration : Int) ≤ p ∧
      p < (seq_pts_to_frame_index seq p + 1) * (seq.video_frame_duration : Int)) := by
  refine ⟨rfl, fun h => ?_⟩
  have hd : (0 : Int) < (seq.video_frame_duration : Int) := by exact_mod_cast h
  unfold seq_pts_to_frame_index
  rw [Int.fdiv_eq_ediv p hd.le]
  have h1 := Int.ediv_add_emod p (seq.video_frame_duration : Int)
  have h2 := Int.emod_nonneg p (ne_of_gt hd)
  have h3 := Int.emod_lt_of_pos p hd
  constructor <;> nlinarith

/-- Witness for C7: the floor characterization at the example timeline and
pts 45000 (inside frame 2, which spans ticks 40000-59999). -/
theorem seq_conversion_formulas_witness :
    seq_pts_to_frame_index exSeq0 45000 * (exSeq0.video_frame_duration : Int) ≤ 45000 ∧
    (45000 : Int) < (seq_pts_to_frame_index exSeq0 45000 + 1) * (exSeq0.video_frame_duration : Int) :=
  (seq_conversion_formulas exSeq0 0 45000).2 (by decide)

/-- C8: the frame duration is computed at initialization as the timeline's
ticks per second divided by the frame rate; for time base 1/600000 and rate
30 it is 20000 ticks, and appending a clip after a 90-frame clip starts it
at exactly 1800000 ticks. -/
theorem sequence_frame_duration_example :
    (∀ (tb : AVRational) (fps : Nat),
      (init_sequence tb fps).video_frame_duration = tb.den / fps) ∧
    exSeq0.video_frame_duration = 20000 ∧
    exSeqAB90.clips.map Clip.pts = [0, 1800000] :=
  ⟨fun _ _ => rfl, by decide, by decide⟩

/-- C9: a read in the `END` or `UNSEEKED` state returns the error/end
condition (a negative code, no packet) and leaves the sequence — in
particular `current_frame_idx` and `current_clip_idx` — untouched. -/
theorem sequence_read_packet_no_read_state (seq : Sequence)
    (h : seq.state = SeqState.UNSEEKED ∨ seq.state = SeqState.END) :
    sequence_read_packet seq = (-1, none, seq) := by
  rcases h with h | h <;> · unfold sequence_read_packet; rw [h]

/-- Witness for C9: reading the freshly initialized (hence `UNSEEKED`)
example timeline changes nothing. -/
theorem sequence_read_packet_no_read_state_witness :
    sequence_read_packet exSeq0 = (-1, none, exSeq0) :=
  sequence_read_packet_no_read_state exSeq0 (Or.inl rfl)

/-- Sign discipline of the `POSITIONED` read loop: a non-negative code is
returned exactly when a packet is produced, and every failing return —
end-of-sequence and error alike — is the single code -1. -/
theorem seq_read_rec_sign (fuel : Nat) (seq : Sequence) :
    (0 ≤ (seq_read_rec fuel seq).1 ↔ ((seq_read_rec fuel seq).2.1).isSome) ∧
    ((seq_read_rec fuel seq).1 < 0 → (seq_read_rec fuel seq).1 = -1) := by
  induction fuel generalizing seq with
  | zero => simp [seq_read_rec]
  | succ n ih =>
    rw [seq_read_rec]
    split
    · simp
    · split
      · simp
      · split
        · exact ih _
        · simp

/-- C10: `sequence_read_packet` produces a packet exactly when its return
code is non-negative, and every negative return — normal end-of-sequence,
read in `END`/`UNSEEKED`, and internal error alike — is the same code -1,
so the return code alone cannot separate end-of-sequence from failure. -/
theorem sequence_read_packet_sign (seq : Sequence) :
    (0 ≤ (sequence_read_packet seq).1 ↔ ((sequence_read_packet seq).2.1).isSome) ∧
    ((sequence_read_packet seq).1 < 0 → (sequence_read_packet seq).1 = -1) := by
  unfold sequence_read_packet
  cases hs : seq.state with
  | UNSEEKED => simp
  | POSITIONED => exact seq_read_rec_sign _ _
  | END => simp

/-- Witness for C10: the read on the fresh example timeline fails with
exactly the code -1. -/
theorem sequence_read_packet_sign_witness :
    (sequence_read_packet exSeq0).1 = -1 :=
  (sequence_read_packet_sign exSeq0).2 (by decide)

/-- C2: on the two-clip timeline [A: frames 0-9][B: frames 10-24], a seek
to frame 0 succeeds, and the packets produced by looping
`sequence_read_packet` until the first negative return are exactly ten
packets attributed to clip A (list position 0) carrying frames 0-9,
followed by the fifteen packets of clip B (position 1) carrying frames
10-24: no frame at the boundary is duplicated or skipped. -/
theorem sequence_read_two_clip_boundary :
    (sequence_seek exSeqAB 0).1 = 0 ∧
    readN 30 exSeqRead =
      (List.range 10).map (fun k => ⟨0, (k : Int)⟩) ++
      (List.range 15).map (fun k => ⟨1, ((10 + k : Nat) : Int)⟩) := by
  exact ⟨by decide, by decide⟩

/-- Inserting a clip whose key is at least every existing key puts it at the
very end of the list (stability at the top key). -/
theorem insertClip_eq_append (c : Clip) (l : List Clip)
    (h : ∀ x ∈ l, x.pts ≤ c.pts) : insertClip c l = l ++ [c] := by
  induction l with
  | nil => rfl
  | cons x xs ih =>
    rw [insertClip, if_pos (h x (List.mem_cons_self x xs)),
      ih (fun y hy => h y (List.mem_cons_of_mem _ hy))]
    rfl

/-- In a list sorted by `pts`, every element's key is at most the last
element's key. -/
theorem pts_le_of_getLast (l : List Clip)
    (hs : l.Pairwise (fun a b : Clip => a.pts ≤ b.pts)) (lst : Clip)
    (h : l.getLast? = some lst) : ∀ x ∈ l, x.pts ≤ lst.pts := by
  induction l with
  | nil => intro x hx; cases hx
  | cons a as ih =>
    cases as with
    | nil =>
      intro x hx
      have ha : a = lst := by
        have : some a = some lst := h
        injection this
      rcases List.mem_singleton.mp hx with rfl
      exact le_of_eq (congrArg Clip.pts ha)
    | cons b bs =>
      have h2 : (b :: bs).getLast? = some lst := by
        rw [List.getLast?_cons_cons] at h; exact h
      have hs2 := (List.pairwise_cons.mp hs).2
      have hhead := (List.pairwise_cons.mp hs).1
      intro x hx
      rcases List.mem_cons.mp hx with rfl | hx2
      · calc x.pts ≤ b.pts := hhead b (List.mem_cons_self b bs)
          _ ≤ lst.pts := ih hs2 h2 b (List.mem_cons_self b bs)
      · exact ih hs2 h2 x hx2

/-- C5: `sequence_append_clip` on a sorted timeline starts the new clip at
`sequence_end_pts`, which is 0 for an empty timeline and the last clip's
start plus its duration in ticks otherwise, and the new clip lands directly
after the previous last clip — no gap and nothing after it. -/
theorem sequence_append_clip_no_gap (seq : Sequence) (c : Clip)
    (hs : clipsOrdered seq.clips) :
    (sequence_append_clip seq c).clips
      = seq.clips ++ [{ c with pts := sequence_end_pts seq, stamp := seq.stamp_counter }] ∧
    (seq.clips = [] → sequence_end_pts seq = 0) ∧
    (∀ l, seq.clips.getLast? = some l →
      sequence_end_pts seq = l.pts + ((l.frames * seq.video_frame_duration : Nat) : Int)) := by
  refine ⟨?_, ?_, ?_⟩
  · show insertClip _ seq.clips = _
    apply insertClip_eq_append
    intro x hx
    cases hlast : seq.clips.getLast? with
    | none =>
      rw [List.getLast?_eq_none_iff] at hlast
      rw [hlast] at hx
      cases hx
    | some lst =>
      have hle : x.pts ≤ lst.pts := by
        apply pts_le_of_getLast seq.clips ?_ lst hlast x hx
        exact List.Pairwise.imp (fun h => clipBefore_pts_le h) hs
      show x.pts ≤ sequence_end_pts seq
      unfold sequence_end_pts
      rw [hlast]
      show x.pts ≤ lst.pts + ((lst.frames * seq.video_frame_duration : Nat) : Int)
      have : (0 : Int) ≤ ((lst.frames * seq.video_frame_duration : Nat) : Int) :=
        Int.ofNat_nonneg _
      omega
  · intro h
    unfold sequence_end_pts
    rw [h]
    rfl
  · intro l hl
    unfold sequence_end_pts
    rw [hl]

/-- Witness for C5: appending the 25-frame clip to the one-clip timeline of
the frame-duration example places it at 1800000, right at the end of the
90-frame clip. -/
theorem sequence_append_clip_no_gap_witness :
    (sequence_append_clip exSeqA90 exClipB25).clips
      = exSeqA90.clips ++
        [{ exClipB25 with pts := sequence_end_pts exSeqA90, stamp := exSeqA90.stamp_counter }] :=
  (sequence_append_clip_no_gap exSeqA90 exClipB25 (by decide)).1

/-- C6: `seq_frame_within_clip` returns a negative value exactly when the
resolved clip-local position — `clip_origin_pts` plus the tick distance from
the placement start, rescaled into the clip's own time base when it differs
from the sequence's — is negative or exceeds the clip's own duration; on
every other input it returns exactly that resolved position. -/
theorem seq_frame_within_clip_spec (seq : Sequence) (c : Clip) (F : Int) :
    (seq_frame_within_clip seq c F < 0 ↔
      (c.orig_pts + rescale_to_clip (seq_frame_index_to_pts seq F - c.pts)
          seq.time_base.den c.tps < 0 ∨
       c.duration < c.orig_pts + rescale_to_clip (seq_frame_index_to_pts seq F - c.pts)
          seq.time_base.den c.tps)) ∧
    (0 ≤ seq_frame_within_clip seq c F →
      seq_frame_within_clip seq c F
        = c.orig_pts + rescale_to_clip (seq_frame_index_to_pts seq F - c.pts)
            seq.time_base.den c.tps) := by
  unfold seq_frame_within_clip
  by_cases h : c.orig_pts + rescale_to_clip (seq_frame_index_to_pts seq F - c.pts)
      seq.time_base.den c.tps < 0 ∨
    c.duration < c.orig_pts + rescale_to_clip (seq_frame_index_to_pts seq F - c.pts)
      seq.time_base.den c.tps
  · rw [if_pos h]
    exact ⟨iff_of_true (by decide) h, fun h0 => absurd h0 (by decide)⟩
  · rw [if_neg h]
    push_neg at h
    exact ⟨iff_of_false (not_lt.mpr h.1) (by push_neg; exact h), fun _ => rfl⟩

/-- Witness for C6: frame 5 inside the 90-frame clip placed at 0 resolves to
clip-local tick 100000 (same time base, origin 0). -/
theorem seq_frame_within_clip_spec_witness :
    seq_frame_within_clip exSeq0 exClipA90 5
      = exClipA90.orig_pts + rescale_to_clip (seq_frame_index_to_pts exSeq0 5 - exClipA90.pts)
          exSeq0.time_base.den exClipA90.tps :=
  (seq_frame_within_clip_spec exSeq0 exClipA90 5).2 (by decide)

/-- Soundness of the containment search: a returned pair is a real position
of the list, and the clip found there starts at or before the target
frame. -/
theorem lastStartLE_sound (fd : Nat) (F : Int) (l : List Clip) (i : Nat) (c : Clip)
    (h : lastStartLE fd F l = some (i, c)) :
    l[i]? = some c ∧ clip_start_frame fd c ≤ F := by
  induction l generalizing i with
  | nil => exact absurd h (by simp [lastStartLE])
  | cons x xs ih =>
    rw [lastStartLE] at h
    by_cases hx : clip_start_frame fd x ≤ F
    · rw [if_pos hx] at h
      cases hrec : lastStartLE fd F xs with
      | some ic =>
        rw [hrec] at h
        have hi : ic.1 + 1 = i := congrArg (fun p => p.1) (Option.some.inj h)
        have hc : ic.2 = c := congrArg (fun p => p.2) (Option.some.inj h)
        obtain ⟨a, b⟩ := ic
        subst hc
        subst hi
        have := ih a (by rw [hrec])
        exact ⟨by simpa using this.1, this.2⟩
      | none =>
        rw [hrec] at h
        have hi : 0 = i := congrArg (fun p => p.1) (Option.some.inj h)
        have hc : x = c := congrArg (fun p => p.2) (Option.some.inj h)
        subst hc
        subst hi
        exact ⟨by simp, hx⟩
    · rw [if_neg hx] at h
      cases h

/-- C3: a failed seek (target before all clips, past all clips, or in a
gap) returns a negative code and leaves the sequence — in particular
`current_frame_idx` and `current_clip_idx` — exactly as it was, while a
successful seek recomputes both fields together so that
`current_frame_idx` lies within the span of the placement stored at
`current_clip_idx`. -/
theorem sequence_seek_spec (seq : Sequence) (F : Int) :
    ((sequence_seek seq F).1 < 0 → (sequence_seek seq F).2 = seq) ∧
    (0 ≤ (sequence_seek seq F).1 →
      ∃ c, ((sequence_seek seq F).2.clips)[((sequence_seek seq F).2.current_clip_idx).toNat]?
          = some c ∧
        clip_start_frame seq.video_frame_duration c ≤ (sequence_seek seq F).2.current_frame_idx ∧
        (sequence_seek seq F).2.current_frame_idx
          < clip_start_frame seq.video_frame_duration c + (c.frames : Int)) := by
  cases hfind : lastStartLE seq.video_frame_duration F seq.clips with
  | none =>
    have heq : sequence_seek seq F = (-1, seq) := by
      unfold sequence_seek; rw [hfind]
    rw [heq]
    exact ⟨fun _ => rfl, fun h0 => by simp at h0⟩
  | some ic =>
    obtain ⟨i, c⟩ := ic
    obtain ⟨hget, hle⟩ := lastStartLE_sound seq.video_frame_duration F seq.clips i c hfind
    by_cases hin : F < clip_start_frame seq.video_frame_duration c + (c.frames : Int)
    · have heq : sequence_seek seq F =
          (0, { seq with
                clips := seq.clips.set i
                  { c with cursor := (F - clip_start_frame seq.video_frame_duration c).toNat }
                current_frame_idx := F
                current_clip_idx := Int.ofNat i
                state := SeqState.POSITIONED }) := by
        simp [sequence_seek, hfind, hin]
      rw [heq]
      refine ⟨fun h0 => by simp at h0, fun _ => ?_⟩
      refine ⟨{ c with cursor := (F - clip_start_frame seq.video_frame_duration c).toNat },
        ?_, hle, hin⟩
      have hlen : i < seq.clips.length := (List.getElem?_eq_some_iff.mp hget).1
      show (seq.clips.set i _)[i]? = _
      simp [List.getElem?_set_self, hlen]
    · have heq : sequence_seek seq F = (-1, seq) := by
        simp [sequence_seek, hfind, hin]
      rw [heq]
      exact ⟨fun _ => rfl, fun h0 => by simp at h0⟩

/-- Witness for C3: seeking frame 5 on the empty timeline fails and leaves
the sequence untouched. -/
theorem sequence_seek_spec_witness :
    (sequence_seek exSeq0 5).2 = exSeq0 :=
  (sequence_seek_spec exSeq0 5).1 (by decide)

/-- Membership after a stable insert: the new clip or an old one. -/
theorem mem_insertClip {c y : Clip} {l : List Clip} (h : y ∈ insertClip c l) :
    y = c ∨ y ∈ l := by
  induction l with
  | nil =>
    rw [insertClip] at h
    exact Or.inl (List.mem_singleton.mp h)
  | cons x xs ih =>
    rw [insertClip] at h
    by_cases hx : x.pts ≤ c.pts
    · rw [if_pos hx] at h
      rcases List.mem_cons.mp h with h1 | h2
      · rw [h1]
        exact Or.inr (List.mem_cons_self x xs)
      · rcases ih h2 with h3 | h3
        · exact Or.inl h3
        · exact Or.inr (List.mem_cons_of_mem _ h3)
    · rw [if_neg hx] at h
      rcases List.mem_cons.mp h with h1 | h2
      · exact Or.inl h1
      · exact Or.inr h2

/-- Stable insertion preserves the sorted-and-stable invariant provided the
new clip's stamp is fresh (larger than every stamp already present). -/
theorem pairwise_insertClip (c : Clip) (l : List Clip) (hl : l.Pairwise clipBefore)
    (hs : ∀ x ∈ l, x.stamp < c.stamp) : (insertClip c l).Pairwise clipBefore := by
  induction l with
  | nil => simp [insertClip]
  | cons x xs ih =>
    obtain ⟨hhead, htail⟩ := List.pairwise_cons.mp hl
    rw [insertClip]
    by_cases hx : x.pts ≤ c.pts
    · rw [if_pos hx]
      refine List.pairwise_cons.mpr ⟨?_, ih htail (fun y hy => hs y (List.mem_cons_of_mem _ hy))⟩
      intro y hy
      rcases mem_insertClip hy with rfl | h2
      · rcases lt_or_eq_of_le hx with h3 | h3
        · exact Or.inl h3
        · exact Or.inr ⟨h3, hs x (List.mem_cons_self x xs)⟩
      · exact hhead y h2
    · rw [if_neg hx]
      push_neg at hx
      refine List.pairwise_cons.mpr ⟨?_, hl⟩
      intro y hy
      rcases List.mem_cons.mp hy with rfl | h2
      · exact Or.inl hx
      · exact Or.inl (lt_of_lt_of_le hx (clipBefore_pts_le (hhead y h2)))

/-- Membership after an erase implies membership before. -/
theorem mem_eraseClip {c y : Clip} {l : List Clip} (h : y ∈ eraseClip c l) : y ∈ l := by
  induction l with
  | nil => cases h
  | cons x xs ih =>
    rw [eraseClip] at h
    by_cases hx : x = c
    · rw [if_pos hx] at h
      exact List.mem_cons_of_mem _ h
    · rw [if_neg hx] at h
      rcases List.mem_cons.mp h with rfl | h2
      · exact List.mem_cons_self y xs
      · exact List.mem_cons_of_mem _ (ih h2)

/-- Erasing a clip preserves the sorted-and-stable invariant. -/
theorem pairwise_eraseClip (c : Clip) (l : List Clip) (hl : l.Pairwise clipBefore) :
    (eraseClip c l).Pairwise clipBefore := by
  induction l with
  | nil => exact List.Pairwise.nil
  | cons x xs ih =>
    obtain ⟨hhead, htail⟩ := List.pairwise_cons.mp hl
    rw [eraseClip]
    by_cases hx : x = c
    · rw [if_pos hx]
      exact htail
    · rw [if_neg hx]
      exact List.pairwise_cons.mpr ⟨fun y hy => hhead y (mem_eraseClip hy), ih htail⟩

/-- Internal invariant tying the list order to the stamp counter. -/
def seqInv (seq : Sequence) : Prop :=
  clipsOrdered seq.clips ∧ stampsBelow seq.clips seq.stamp_counter

/-- `sequence_add_clip_pts` preserves the sorted-stable invariant. -/
theorem add_clip_pts_inv (seq : Sequence) (c : Clip) (p : Int) (h : seqInv seq) :
    seqInv (sequence_add_clip_pts seq c p) := by
  obtain ⟨hord, hst⟩ := h
  constructor
  · exact pairwise_insertClip _ _ hord (fun x hx => hst x hx)
  · intro x hx
    rcases mem_insertClip hx with rfl | h2
    · exact Nat.lt_succ_self _
    · exact Nat.lt_succ_of_lt (hst x h2)

/-- Every one of the four mutating operations preserves the invariant. -/
theorem applySeqOp_inv (seq : Sequence) (op : SeqOp) (h : seqInv seq) :
    seqInv (applySeqOp seq op) := by
  cases op with
  | addClip c F => exact add_clip_pts_inv _ _ _ h
  | addClipPts c p => exact add_clip_pts_inv _ _ _ h
  | appendClip c => exact add_clip_pts_inv _ _ _ h
  | moveClipPts c p =>
    apply add_clip_pts_inv
    exact ⟨pairwise_eraseClip c _ h.1, fun x hx => h.2 x (mem_eraseClip hx)⟩

/-- The invariant holds after any interleaving of operations. -/
theorem applySeqOps_inv (seq : Sequence) (ops : List SeqOp) (h : seqInv seq) :
    seqInv (applySeqOps seq ops) := by
  induction ops generalizing seq with
  | nil => exact h
  | cons op ops ih => exact ih _ (applySeqOp_inv _ _ h)

/-- C4: after any interleaving of `sequence_add_clip`,
`sequence_add_clip_pts`, `sequence_append_clip` and `move_clip_pts` applied
to a fresh sequence, the clip list is pairwise ordered by ascending
`timeline_start_pts`, with clips of equal start pts ordered by their
insertion stamps — i.e. in relative insertion order (a move re-inserts, so
its stamp is the stamp of the move). -/
theorem sequence_ops_sorted_stable (tb : AVRational) (fps : Nat) (ops : List SeqOp) :
    clipsOrdered (applySeqOps (init_sequence tb fps) ops).clips := by
  have hinit : seqInv (init_sequence tb fps) := by
    constructor
    · exact List.Pairwise.nil
    · intro x hx
      cases hx
  exact (applySeqOps_inv _ ops hinit).1

end VEA
